import Mathlib

/-!
Verification of the uast-go conversion and indexing engine.

This development shallowly embeds the Go source of the repository
(`convert.go`, `uast.go`, `utils.go`) into Lean:

* `TreeSitterNode` mirrors the input CST type; a `nil *TreeSitterNode`
  child pointer is an explicit `Option`.
* `Node`, `Position`, `Location`, `UAST` mirror the output types; the Go
  `uint32` position fields are `Nat` values reduced modulo `2^32` at the
  point of conversion, exactly where the source performs `uint32(...)`.
* The converter's `uint64` id counter is a `Nat` reduced modulo `2^64` at
  each increment, exactly as `atomic.AddUint64` wraps.
* Go maps are embedded as association lists with replace-on-insert;
  map lookups in the source are keyed lookups here.
* The bounded-parallel child conversion (`convertChildrenParallel`) is
  embedded by its result structure: one slot per input child, each
  non-nil child converted into its original slot, nil slots compacted
  away afterwards.  The atomic id counter is threaded through the slots
  in input order, which is one admissible linearization of the atomic
  increments; the theorems below about parallel conversion are stated
  about fields (kind, token, location, order) that the source computes
  independently of the interleaving of counter increments.
-/

namespace UastGo

/-- NodeType represents the type of a UAST node (a string in the source). -/
abbrev NodeType := String

/-- Role defines the role of a node in the AST (a string in the source). -/
abbrev Role := String

def File : NodeType := "File"

def Function : NodeType := "Function"

def Class : NodeType := "Class"

def Method : NodeType := "Method"

def Variable : NodeType := "Variable"

def Literal : NodeType := "Literal"

def Expression : NodeType := "Expression"

def Statement : NodeType := "Statement"

def Identifier : NodeType := "Identifier"

def Comment : NodeType := "Comment"

def Argument : NodeType := "Argument"

def Parameter : NodeType := "Parameter"

def Return : NodeType := "Return"

def Loop : NodeType := "Loop"

def Condition : NodeType := "Condition"

def Assignment : NodeType := "Assignment"

def Operator : NodeType := "Operator"

def Call : NodeType := "Call"

def Import : NodeType := "Import"

def Package : NodeType := "Package"

def Unknown : NodeType := "Unknown"

def RoleDeclaration : Role := "Declaration"

def RoleDefinition : Role := "Definition"

def RoleCall : Role := "Call"

def RoleReference : Role := "Reference"

def RoleImport : Role := "Import"

def RoleExport : Role := "Export"

def RoleStatement : Role := "Statement"

def RoleExpression : Role := "Expression"

def RoleArgument : Role := "Argument"

def RoleReceiver : Role := "Receiver"

def RoleCondition : Role := "Condition"

def RoleBody : Role := "Body"

/-- Position represents the position of a node in the source code.
Fields are `uint32` in the source; values produced by the converter are
always reduced modulo `2^32`. -/
structure Position where
  line : Nat
  column : Nat
deriving DecidableEq, Repr

/-- Location represents the start and end positions of a node.  The Go
field `End` is called `stop` here because `end` is a Lean keyword. -/
structure Location where
  start : Position
  stop : Position
deriving DecidableEq, Repr

/-- TreeSitterNode represents a node in the Tree-sitter CST.  Children are
`Option` values because the Go slice `[]*TreeSitterNode` may contain nil
pointers. -/
inductive TreeSitterNode : Type where
  | mk (type : String) (startByte endByte : Int) (startPoint endPoint : Int × Int)
       (children : List (Option TreeSitterNode)) (text : String)

/-- Node represents a node in the UAST. -/
inductive Node : Type where
  | mk (id : String) (type : NodeType) (token : String) (roles : List Role)
       (children : List Node) (properties : List (String × String))
       (location : Location)

def TreeSitterNode.type : TreeSitterNode → String
  | .mk ty _ _ _ _ _ _ => ty

def TreeSitterNode.startPoint : TreeSitterNode → Int × Int
  | .mk _ _ _ sp _ _ _ => sp

def TreeSitterNode.endPoint : TreeSitterNode → Int × Int
  | .mk _ _ _ _ ep _ _ => ep

def TreeSitterNode.children : TreeSitterNode → List (Option TreeSitterNode)
  | .mk _ _ _ _ _ cs _ => cs

def TreeSitterNode.text : TreeSitterNode → String
  | .mk _ _ _ _ _ _ tx => tx

def Node.id : Node → String
  | .mk i _ _ _ _ _ _ => i

def Node.type : Node → NodeType
  | .mk _ ty _ _ _ _ _ => ty

def Node.token : Node → String
  | .mk _ _ tok _ _ _ _ => tok

def Node.roles : Node → List Role
  | .mk _ _ _ rs _ _ _ => rs

def Node.children : Node → List Node
  | .mk _ _ _ _ cs _ _ => cs

def Node.properties : Node → List (String × String)
  | .mk _ _ _ _ _ ps _ => ps

def Node.location : Node → Location
  | .mk _ _ _ _ _ _ loc => loc

mutual

/-- Structural boolean equality on `Node` (needed because `deriving
DecidableEq` does not handle this nested inductive). -/
def Node.beq : Node → Node → Bool
  | .mk i1 t1 k1 r1 c1 p1 l1, .mk i2 t2 k2 r2 c2 p2 l2 =>
    decide (i1 = i2) && decide (t1 = t2) && decide (k1 = k2) && decide (r1 = r2)
      && Node.beqList c1 c2 && decide (p1 = p2) && decide (l1 = l2)

def Node.beqList : List Node → List Node → Bool
  | [], [] => true
  | a :: as, b :: bs => Node.beq a b && Node.beqList as bs
  | [], _ :: _ => false
  | _ :: _, [] => false

end

mutual

theorem Node.beq_iff : (a b : Node) → Node.beq a b = true ↔ a = b
  | .mk i1 t1 k1 r1 c1 p1 l1, .mk i2 t2 k2 r2 c2 p2 l2 => by
    simp only [Node.beq, Bool.and_eq_true, decide_eq_true_eq, Node.mk.injEq]
    rw [Node.beqList_iff c1 c2]
    tauto

theorem Node.beqList_iff : (as bs : List Node) → Node.beqList as bs = true ↔ as = bs
  | [], [] => by simp [Node.beqList]
  | a :: as, b :: bs => by
    simp only [Node.beqList, Bool.and_eq_true, List.cons.injEq]
    rw [Node.beq_iff a b, Node.beqList_iff as bs]
  | [], _ :: _ => by simp [Node.beqList]
  | _ :: _, [] => by simp [Node.beqList]

end

instance : DecidableEq Node := fun a b => decidable_of_iff _ (Node.beq_iff a b)

/-- Cardinality of the Go `uint32` type. -/
def uint32Card : Nat := 4294967296

/-- Cardinality of the Go `uint64` type. -/
def uint64Card : Nat := 18446744073709551616

/-- Embedding of the Go conversion `uint32(x)` applied to a (possibly
negative) integer: two's-complement truncation to 32 bits. -/
def toUInt32Wrap (x : Int) : Nat := (x % (4294967296 : Int)).toNat

/-- Converter handles the conversion from Tree-sitter CST to UAST.  The
mutable `nodeIDCounter` field is threaded explicitly through the
conversion functions instead of being stored here. -/
structure Converter where
  mappingRules : List (String × NodeType)
  parallelThreshold : Nat
  maxGoRoutines : Nat

/-- defaultMappingRules returns the default mapping from Tree-sitter node
types to UAST. -/
def defaultMappingRules : List (String × NodeType) :=
  [("program", File),
   ("function", Function),
   ("function_definition", Function),
   ("method_definition", Method),
   ("class_definition", Class),
   ("class", Class),
   ("identifier", Identifier),
   ("variable", Variable),
   ("string_literal", Literal),
   ("number_literal", Literal),
   ("integer_literal", Literal),
   ("float_literal", Literal),
   ("boolean_literal", Literal),
   ("expression", Expression),
   ("binary_expression", Expression),
   ("call_expression", Call),
   ("statement", Statement),
   ("if_statement", Condition),
   ("for_statement", Loop),
   ("while_statement", Loop),
   ("return_statement", Return),
   ("import_statement", Import),
   ("package_declaration", Package),
   ("comment", Comment)]

/-- NewConverter creates a new Converter with the default mapping rules
(the zeroed id counter is the separate counter argument `0`). -/
def NewConverter : Converter :=
  { mappingRules := defaultMappingRules, parallelThreshold := 50, maxGoRoutines := 100 }

/-- Keyed lookup in an association list, embedding a Go map read
`m[key]` with its `ok` flag. -/
def lookupRule : List (String × NodeType) → String → Option NodeType
  | [], _ => none
  | (k, v) :: rest, key => if k = key then some v else lookupRule rest key

/-- mapNodeType maps a Tree-sitter node type to a UAST node type. -/
def mapNodeType (c : Converter) (tsType : String) : NodeType :=
  match lookupRule c.mappingRules tsType with
  | some nodeType => nodeType
  | none => Unknown

/-- inferRoles infers the roles of a node based on its type and
Tree-sitter type.  The Go `switch` (whose cases test mutually exclusive
kind constants) is an if-chain here, and each `append` is `++`. -/
def inferRoles (nodeType : NodeType) (tsType : String) : List Role :=
  let roles : List Role := []
  let roles :=
    if nodeType = Function ∨ nodeType = Method ∨ nodeType = Class then
      roles ++ [RoleDeclaration, RoleDefinition]
    else if nodeType = Call then roles ++ [RoleCall]
    else if nodeType = Identifier then roles ++ [RoleReference]
    else if nodeType = Import then roles ++ [RoleImport]
    else if nodeType = Statement then roles ++ [RoleStatement]
    else if nodeType = Expression then roles ++ [RoleExpression]
    else if nodeType = Argument then roles ++ [RoleArgument]
    else if nodeType = Parameter then roles ++ [RoleArgument]
    else if nodeType = Condition then roles ++ [RoleCondition]
    else roles
  let roles :=
    if tsType = "method_receiver" then roles ++ [RoleReceiver]
    else if tsType = "function_body" ∨ tsType = "method_body" then roles ++ [RoleBody]
    else roles
  roles

/-- Little-endian decimal digits by repeated division, with an explicit
structural fuel argument (`fuel ≥ n` suffices, see `decDigitsAux_eq`). -/
def decDigitsAux : Nat → Nat → List Nat
  | _, 0 => []
  | 0, _ + 1 => []
  | fuel + 1, n + 1 => (n + 1) % 10 :: decDigitsAux fuel ((n + 1) / 10)

/-- Embedding of `strconv.FormatUint(n, 10)`: the decimal string of `n`,
obtained from the little-endian digits by repeated division. -/
def natToDec (n : Nat) : String :=
  if n = 0 then "0" else ((decDigitsAux n n).map Nat.digitChar).reverse.asString

/-- nextNodeID generates a unique ID for a node: the `uint64` counter is
atomically incremented (wrapping at `2^64`) and the new value is
formatted in decimal.  Returns the ID string and the new counter. -/
def nextNodeID (ctr : Nat) : String × Nat :=
  let id := (ctr + 1) % uint64Card
  (natToDec id, id)

mutual

/-- convertNode converts a single (non-nil) Tree-sitter node to a UAST
node, threading the id counter.  The source's `if tsNode == nil` guard
corresponds to the `Option` handling at the call sites. -/
def convertNode (c : Converter) (t : TreeSitterNode) (ctr : Nat) : Node × Nat :=
  match t with
  | .mk ty _sb _eb sp ep children text =>
    let idc := nextNodeID ctr
    let nodeType := mapNodeType c ty
    let loc : Location :=
      { start := { line := toUInt32Wrap (sp.1 + 1), column := toUInt32Wrap (sp.2 + 1) },
        stop := { line := toUInt32Wrap (ep.1 + 1), column := toUInt32Wrap (ep.2 + 1) } }
    let kids :=
      if c.parallelThreshold < children.length ∧ children.length < 1000 then
        -- this branch is convertChildrenParallel (defined after this
        -- block, to which it is definitionally equal), inlined so that
        -- the mutual recursion stays structural
        (let slots := parallelSlots c children idc.2
         (slots.1.filterMap (fun x => x), slots.2))
      else
        convertChildrenSequential c children idc.2
    (Node.mk idc.1 nodeType text (inferRoles nodeType ty) kids.1 [("ts_type", ty)] loc,
     kids.2)

/-- convertChildrenSequential converts children sequentially, skipping
nil children (for which the source's `convertNode` returns nil). -/
def convertChildrenSequential (c : Converter) (children : List (Option TreeSitterNode))
    (ctr : Nat) : List Node × Nat :=
  match children with
  | [] => ([], ctr)
  | none :: rest => convertChildrenSequential c rest ctr
  | some t :: rest =>
    let a := convertNode c t ctr
    let r := convertChildrenSequential c rest a.2
    (a.1 :: r.1, r.2)

/-- parallelSlots builds the slot array of `convertChildrenParallel`:
`none` for nil input children (skipped by the dispatch loop), `some`
of the converted node otherwise. -/
def parallelSlots (c : Converter) (children : List (Option TreeSitterNode))
    (ctr : Nat) : List (Option Node) × Nat :=
  match children with
  | [] => ([], ctr)
  | none :: rest =>
    let r := parallelSlots c rest ctr
    (none :: r.1, r.2)
  | some t :: rest =>
    let a := convertNode c t ctr
    let r := parallelSlots c rest a.2
    (some a.1 :: r.1, r.2)

end

/-- convertChildrenParallel converts children in parallel: each non-nil
child's result is written into its original slot, and nil slots are
filtered out afterwards.  The id counter is threaded through the slots
in input order (one admissible linearization of the atomic increments). -/
def convertChildrenParallel (c : Converter) (children : List (Option TreeSitterNode))
    (ctr : Nat) : List Node × Nat :=
  let slots := parallelSlots c children ctr
  (slots.1.filterMap (fun x => x), slots.2)


/-- Observable signature of a converted node: kind, token and location
(the fields the ordering claims compare, deliberately excluding the
concurrency-dependent id). -/
def nodeSig (n : Node) : NodeType × String × Location :=
  (n.type, n.token, n.location)

/-- Location a CST node's position pair is mapped to: a fixed +1 offset
on both coordinates of both endpoints, truncated to `uint32`. -/
def tsShiftLocation (t : TreeSitterNode) : Location :=
  { start := { line := toUInt32Wrap (t.startPoint.1 + 1),
               column := toUInt32Wrap (t.startPoint.2 + 1) },
    stop := { line := toUInt32Wrap (t.endPoint.1 + 1),
              column := toUInt32Wrap (t.endPoint.2 + 1) } }

/-- Expected signature of the conversion of a CST node. -/
def tsSig (c : Converter) (t : TreeSitterNode) : NodeType × String × Location :=
  (mapNodeType c t.type, t.text, tsShiftLocation t)

theorem convertChildrenParallel_eq_sequential (c : Converter)
    (l : List (Option TreeSitterNode)) (ctr : Nat) :
    convertChildrenParallel c l ctr = convertChildrenSequential c l ctr := by
  induction l generalizing ctr with
  | nil => simp [convertChildrenParallel, parallelSlots, convertChildrenSequential]
  | cons hd rest ih =>
    cases hd with
    | none =>
      simp only [convertChildrenParallel, parallelSlots, convertChildrenSequential,
        List.filterMap_cons]
      rw [← ih ctr]
      simp [convertChildrenParallel]
    | some t =>
      simp only [convertChildrenParallel, parallelSlots, convertChildrenSequential,
        List.filterMap_cons]
      rw [← ih (convertNode c t ctr).2]
      simp [convertChildrenParallel]

theorem parallelSlots_fst (c : Converter) (l : List (Option TreeSitterNode)) (ctr : Nat) :
    (parallelSlots c l ctr).1.filterMap (fun x => x)
      = (convertChildrenSequential c l ctr).1 := by
  have h := convertChildrenParallel_eq_sequential c l ctr
  simpa [convertChildrenParallel] using congrArg Prod.fst h

theorem parallelSlots_snd (c : Converter) (l : List (Option TreeSitterNode)) (ctr : Nat) :
    (parallelSlots c l ctr).2 = (convertChildrenSequential c l ctr).2 := by
  have h := convertChildrenParallel_eq_sequential c l ctr
  simpa [convertChildrenParallel] using congrArg Prod.snd h

theorem convertNode_def (c : Converter) (t : TreeSitterNode) (ctr : Nat) :
    convertNode c t ctr =
      (Node.mk (nextNodeID ctr).1 (mapNodeType c t.type) t.text
         (inferRoles (mapNodeType c t.type) t.type)
         (convertChildrenSequential c t.children (nextNodeID ctr).2).1
         [("ts_type", t.type)]
         (tsShiftLocation t),
       (convertChildrenSequential c t.children (nextNodeID ctr).2).2) := by
  cases t with
  | mk ty sb eb sp ep cs tx =>
    simp only [convertNode, TreeSitterNode.type, TreeSitterNode.children,
      TreeSitterNode.text, TreeSitterNode.startPoint, TreeSitterNode.endPoint,
      tsShiftLocation, parallelSlots_fst, parallelSlots_snd]
    split <;> rfl

theorem nodeSig_convertNode (c : Converter) (t : TreeSitterNode) (ctr : Nat) :
    nodeSig (convertNode c t ctr).1 = tsSig c t := by
  rw [convertNode_def]
  simp [nodeSig, tsSig, Node.type, Node.token, Node.location]

theorem sequential_map_sig (c : Converter) (l : List (Option TreeSitterNode)) (ctr : Nat) :
    (convertChildrenSequential c l ctr).1.map nodeSig
      = (l.filterMap (fun x => x)).map (tsSig c) := by
  induction l generalizing ctr with
  | nil => simp [convertChildrenSequential]
  | cons hd rest ih =>
    cases hd with
    | none => simp only [convertChildrenSequential, List.filterMap_cons]; exact ih ctr
    | some t =>
      simp only [convertChildrenSequential, List.filterMap_cons, List.map_cons,
        nodeSig_convertNode]
      rw [ih (convertNode c t ctr).2]

theorem sequential_length (c : Converter) (l : List (Option TreeSitterNode)) (ctr : Nat) :
    (convertChildrenSequential c l ctr).1.length
      = (l.filterMap (fun x => x)).length := by
  have h := congrArg List.length (sequential_map_sig c l ctr)
  simpa using h

theorem toUInt32Wrap_eq (x : Int) (h0 : 0 ≤ x) (h1 : x < 4294967296) :
    (toUInt32Wrap x : Int) = x := by
  unfold toUInt32Wrap
  rw [Int.emod_eq_of_lt h0 h1, Int.toNat_of_nonneg h0]

theorem filterMap_id_map_some {α : Type} (l : List α) :
    (l.map some).filterMap (fun x => x) = l := by
  induction l with
  | nil => simp
  | cons a as ih => simp [ih]

/-- C1 (amended): for every CST node all four of whose point coordinates
lie in `[0, 2^32 - 2]` (so that the +1-shifted value fits in `uint32`),
the UAST node produced for it has location exactly
`(r0+1, c0+1)`-`(r1+1, c1+1)`, each coordinate shifted by +1
independently; coordinates outside that window are truncated modulo
`2^32` by the source's `uint32(...)` conversions (see the
counterexample).  Locations are computed by `convertNode` itself before
the child fan-out decision, and the parallel and sequential child paths
produce elementwise identical location sequences. -/
theorem C1_position_normalization (c : Converter) (t : TreeSitterNode) (ctr : Nat)
    (h1 : 0 ≤ t.startPoint.1 ∧ t.startPoint.1 + 1 < (uint32Card : Int))
    (h2 : 0 ≤ t.startPoint.2 ∧ t.startPoint.2 + 1 < (uint32Card : Int))
    (h3 : 0 ≤ t.endPoint.1 ∧ t.endPoint.1 + 1 < (uint32Card : Int))
    (h4 : 0 ≤ t.endPoint.2 ∧ t.endPoint.2 + 1 < (uint32Card : Int)) :
    (((convertNode c t ctr).1.location.start.line : Int) = t.startPoint.1 + 1
      ∧ ((convertNode c t ctr).1.location.start.column : Int) = t.startPoint.2 + 1
      ∧ ((convertNode c t ctr).1.location.stop.line : Int) = t.endPoint.1 + 1
      ∧ ((convertNode c t ctr).1.location.stop.column : Int) = t.endPoint.2 + 1)
    ∧ ∀ (l : List (Option TreeSitterNode)) (ctr2 : Nat),
        (convertChildrenParallel c l ctr2).1.map Node.location
          = (convertChildrenSequential c l ctr2).1.map Node.location := by
  constructor
  · rw [convertNode_def]
    simp only [Node.location, tsShiftLocation]
    have e1 := toUInt32Wrap_eq (t.startPoint.1 + 1) (by omega) h1.2
    have e2 := toUInt32Wrap_eq (t.startPoint.2 + 1) (by omega) h2.2
    have e3 := toUInt32Wrap_eq (t.endPoint.1 + 1) (by omega) h3.2
    have e4 := toUInt32Wrap_eq (t.endPoint.2 + 1) (by omega) h4.2
    exact ⟨e1, e2, e3, e4⟩
  · intro l ctr2
    rw [convertChildrenParallel_eq_sequential]

/-- Concrete input for the C1 counterexample: a 0-based start row of
`2^32 - 1`, whose +1 shift does not fit in `uint32`. -/
def tC1wide : TreeSitterNode := .mk "x" 0 0 (4294967295, 0) (0, 0) [] ""

/-- C1 counterexample: at start row `2^32 - 1` the converted location's
start line is `uint32(2^32) = 0`, not the claimed `r0 + 1 = 2^32`. -/
theorem C1_counterexample :
    ((convertNode NewConverter tC1wide 0).1.location.start.line : Int)
      ≠ tC1wide.startPoint.1 + 1 := by decide

theorem C1_position_normalization_witness :
    ((convertNode NewConverter (.mk "program" 0 10 (0, 0) (3, 5) [] "") 0).1.location.start.line : Int)
      = (0 : Int) + 1 :=
  (C1_position_normalization NewConverter (.mk "program" 0 10 (0, 0) (3, 5) [] "") 0
    (by decide) (by decide) (by decide) (by decide)).1.1

/-- C2: for children lists without nulls (`l.map some`), the parallel and
sequential paths agree element-for-element in kind, token and location;
moreover on arbitrary children lists both paths return the converted
non-null children in input order (position stability). -/
theorem C2_ordering_stability (c : Converter) (ctr : Nat)
    (l : List TreeSitterNode) (lo : List (Option TreeSitterNode)) :
    ((convertChildrenParallel c (l.map some) ctr).1.map nodeSig
        = (convertChildrenSequential c (l.map some) ctr).1.map nodeSig)
    ∧ (convertChildrenParallel c (l.map some) ctr).1.map nodeSig = l.map (tsSig c)
    ∧ (convertChildrenParallel c lo ctr).1.map nodeSig
        = (lo.filterMap (fun x => x)).map (tsSig c)
    ∧ (convertChildrenSequential c lo ctr).1.map nodeSig
        = (lo.filterMap (fun x => x)).map (tsSig c) := by
  refine ⟨?_, ?_, ?_, ?_⟩
  · rw [convertChildrenParallel_eq_sequential]
  · rw [convertChildrenParallel_eq_sequential, sequential_map_sig, filterMap_id_map_some]
  · rw [convertChildrenParallel_eq_sequential, sequential_map_sig]
  · rw [sequential_map_sig]

/-- C6: on both conversion paths the output children sequence has length
equal to the number of non-null input children, and the concrete input
`[A, null, B]` converts to exactly `[A', B']`. -/
theorem C6_null_child_compaction (c : Converter) (ctr : Nat)
    (lo : List (Option TreeSitterNode)) (a b : TreeSitterNode) :
    (convertChildrenSequential c lo ctr).1.length = (lo.filterMap (fun x => x)).length
    ∧ (convertChildrenParallel c lo ctr).1.length = (lo.filterMap (fun x => x)).length
    ∧ (convertChildrenSequential c [some a, none, some b] ctr).1.map nodeSig
        = [tsSig c a, tsSig c b]
    ∧ (convertChildrenParallel c [some a, none, some b] ctr).1.map nodeSig
        = [tsSig c a, tsSig c b] := by
  refine ⟨sequential_length c lo ctr, ?_, ?_, ?_⟩ <;>
    simp [convertChildrenParallel_eq_sequential, sequential_length, sequential_map_sig]

/-- UAST represents a Universal Abstract Syntax Tree.  The Go maps
`TypeIndex`/`TokenIndex` are association lists here (both key types are
strings). -/
structure UAST where
  Root : Node
  Language : String
  Metadata : List (String × String)
  TypeIndex : List (String × List Node)
  TokenIndex : List (String × List Node)

mutual

/-- Visit order of the single depth-first traversal performed by the
source's `buildIndices` closure: the node itself, then its children's
traversals left to right. -/
def preorder (n : Node) : List Node :=
  match n with
  | .mk i ty tok rs cs ps loc => Node.mk i ty tok rs cs ps loc :: preorderList cs

def preorderList : List Node → List Node
  | [] => []
  | c :: cs => preorder c ++ preorderList cs

end

/-- Association-list embedding of the Go bucket append
`m[k] = append(m[k], n)` on a `map[string][]*Node`. -/
def idxAppend (m : List (String × List Node)) (k : String) (n : Node) :
    List (String × List Node) :=
  match m with
  | [] => [(k, [n])]
  | (k2, l) :: rest => if k2 = k then (k2, l ++ [n]) :: rest else (k2, l) :: idxAppend rest k n

/-- Association-list embedding of the Go map read `m[k]` (with the zero
value, the empty bucket, when the key is absent — matching `FindByType`
and `FindByToken` returning `[]*Node{}` when the key is missing). -/
def idxLookup (m : List (String × List Node)) (k : String) : List Node :=
  match m with
  | [] => []
  | (k2, l) :: rest => if k2 = k then l else idxLookup rest k

/-- Treatment of one visited node by the `buildIndices` traversal:
append it under its kind, and under its token when that is non-empty. -/
def buildStep (acc : (List (String × List Node)) × (List (String × List Node)))
    (n : Node) : (List (String × List Node)) × (List (String × List Node)) :=
  (idxAppend acc.1 n.type n,
   if n.token ≠ "" then idxAppend acc.2 n.token n else acc.2)

/-- buildIndices builds the type and token indices for faster lookups:
one pre-order traversal appending every visited node under its kind and,
when its token is non-empty, under its token. -/
def buildIndices (root : Node) :
    (List (String × List Node)) × (List (String × List Node)) :=
  (preorder root).foldl buildStep ([], [])

/-- NewUAST creates a new UAST with the given root node and language and
immediately builds its indices. -/
def NewUAST (root : Node) (language : String) : UAST :=
  { Root := root, Language := language, Metadata := [],
    TypeIndex := (buildIndices root).1, TokenIndex := (buildIndices root).2 }

/-- FindByType returns all nodes of the given type (the source's
`slices.Clone` is the identity on values). -/
def FindByType (u : UAST) (nodeType : NodeType) : List Node :=
  idxLookup u.TypeIndex nodeType

/-- FindByToken returns all nodes with the given token. -/
def FindByToken (u : UAST) (token : String) : List Node :=
  idxLookup u.TokenIndex token

/-- Convert converts a Tree-sitter CST to a UAST, threading the id
counter; it fails exactly when the root is nil. -/
def Convert (c : Converter) (root : Option TreeSitterNode) (language : String)
    (ctr : Nat) : Except String (UAST × Nat) :=
  match root with
  | none => .error "root node cannot be nil"
  | some r =>
    let p := convertNode c r ctr
    .ok (NewUAST p.1 language, p.2)

/-- C8: Convert returns an error if and only if the root is nil — for
every language; every non-nil root converts to a UAST with no error
(node conversion is total, and null children are dropped rather than
raising). -/
theorem C8_root_null_rejection (c : Converter) (language : String) (ctr : Nat)
    (root : Option TreeSitterNode) :
    Convert c none language ctr = .error "root node cannot be nil"
    ∧ (∀ r : TreeSitterNode, ∃ u : UAST, ∃ ctr2 : Nat,
        Convert c (some r) language ctr = .ok (u, ctr2))
    ∧ ((∃ e, Convert c root language ctr = .error e) ↔ root = none) := by
  refine ⟨rfl, fun r => ⟨_, _, rfl⟩, ?_⟩
  cases root <;> simp [Convert]

mutual

/-- Number of non-nil nodes in a CST subtree (each of which receives
exactly one id during conversion). -/
def countTS : TreeSitterNode → Nat
  | .mk _ _ _ _ _ cs _ => 1 + countTSList cs

def countTSList : List (Option TreeSitterNode) → Nat
  | [] => 0
  | none :: rest => countTSList rest
  | some t :: rest => countTS t + countTSList rest

end

theorem decDigitsAux_eq (fuel : Nat) : ∀ n : Nat, n ≤ fuel → decDigitsAux fuel n = Nat.digits 10 n := by
  induction fuel with
  | zero =>
    intro n h
    have hn : n = 0 := by omega
    subst hn
    simp [decDigitsAux]
  | succ f ih =>
    intro n h
    match n with
    | 0 => simp [decDigitsAux]
    | m + 1 =>
      have hdiv : (m + 1) / 10 ≤ f := by
        have := Nat.div_lt_self (Nat.succ_pos m) (by norm_num : 1 < 10)
        omega
      rw [decDigitsAux, ih ((m + 1) / 10) hdiv,
        Nat.digits_def' (by norm_num : 1 < 10) (Nat.succ_pos m)]

theorem natToDec_digits (n : Nat) :
    natToDec n = if n = 0 then "0"
      else ((Nat.digits 10 n).map Nat.digitChar).reverse.asString := by
  unfold natToDec
  rw [decDigitsAux_eq n n le_rfl]

theorem digitChar_inj : ∀ a < 10, ∀ b < 10, Nat.digitChar a = Nat.digitChar b → a = b := by
  decide

theorem map_digitChar_inj : ∀ (l1 l2 : List Nat), (∀ x ∈ l1, x < 10) → (∀ x ∈ l2, x < 10) →
    l1.map Nat.digitChar = l2.map Nat.digitChar → l1 = l2 := by
  intro l1
  induction l1 with
  | nil => intro l2 _ _ h; cases l2 <;> simp_all
  | cons a as ih =>
    intro l2 h1 h2 h
    cases l2 with
    | nil => simp_all
    | cons b bs =>
      simp only [List.map_cons, List.cons.injEq] at h
      have ha : a = b := digitChar_inj a (h1 a (by simp)) b (h2 b (by simp)) h.1
      have hbs := ih bs (fun x hx => h1 x (by simp [hx])) (fun x hx => h2 x (by simp [hx])) h.2
      simp [ha, hbs]

theorem natToDec_ne_zero_str {n : Nat} (hn : n ≠ 0) : natToDec n ≠ "0" := by
  rw [natToDec_digits, if_neg hn]
  intro h
  rw [List.asString_eq] at h
  have h0 : ("0" : String).toList = ['0'] := by decide
  rw [h0] at h
  have hmap : (Nat.digits 10 n).map Nat.digitChar = ['0'] := by
    have := congrArg List.reverse h
    simpa using this
  have hdig : Nat.digits 10 n = [0] := by
    apply map_digitChar_inj (Nat.digits 10 n) [0]
      (fun x hx => Nat.digits_lt_base (by norm_num) hx) (by simp)
    rw [hmap]
    decide
  have hof := Nat.ofDigits_digits 10 n
  rw [hdig] at hof
  simp [Nat.ofDigits] at hof
  exact hn hof.symm

theorem natToDec_inj : ∀ a b : Nat, natToDec a = natToDec b → a = b := by
  intro a b h
  by_cases ha : a = 0 <;> by_cases hb : b = 0
  · omega
  · exfalso
    have hz : natToDec a = "0" := by rw [natToDec_digits, if_pos ha]
    exact natToDec_ne_zero_str hb (h.symm.trans hz)
  · exfalso
    have hz : natToDec b = "0" := by rw [natToDec_digits, if_pos hb]
    exact natToDec_ne_zero_str ha (h.trans hz)
  · have hlist : ((Nat.digits 10 a).map Nat.digitChar).reverse
        = ((Nat.digits 10 b).map Nat.digitChar).reverse := by
      have h2 := h
      rw [natToDec_digits, natToDec_digits, if_neg ha, if_neg hb] at h2
      exact List.asString_inj.mp h2
    have hmap : (Nat.digits 10 a).map Nat.digitChar = (Nat.digits 10 b).map Nat.digitChar := by
      have := congrArg List.reverse hlist
      simpa using this
    have hdig : Nat.digits 10 a = Nat.digits 10 b :=
      map_digitChar_inj _ _ (fun x hx => Nat.digits_lt_base (by norm_num) hx)
        (fun x hx => Nat.digits_lt_base (by norm_num) hx) hmap
    calc a = Nat.ofDigits 10 (Nat.digits 10 a) := (Nat.ofDigits_digits 10 a).symm
      _ = Nat.ofDigits 10 (Nat.digits 10 b) := by rw [hdig]
      _ = b := Nat.ofDigits_digits 10 b

/-- Sequence of id strings issued by `nextNodeID` along `k` consecutive
increments from counter state `ctr`. -/
def idsFrom : Nat → Nat → List String
  | _, 0 => []
  | ctr, k + 1 => natToDec ((ctr + 1) % uint64Card) :: idsFrom (ctr + 1) k

theorem idsFrom_congr : ∀ (k ctr1 ctr2 : Nat),
    ctr1 % uint64Card = ctr2 % uint64Card → idsFrom ctr1 k = idsFrom ctr2 k := by
  intro k
  induction k with
  | zero => intro _ _ _; rfl
  | succ n ih =>
    intro ctr1 ctr2 h
    have hstep : (ctr1 + 1) % uint64Card = (ctr2 + 1) % uint64Card := by
      rw [Nat.add_mod ctr1 1, Nat.add_mod ctr2 1, h]
    simp only [idsFrom, hstep]
    rw [ih (ctr1 + 1) (ctr2 + 1) hstep]

theorem idsFrom_length : ∀ (k ctr : Nat), (idsFrom ctr k).length = k := by
  intro k
  induction k with
  | zero => intro _; rfl
  | succ n ih => intro ctr; simp [idsFrom, ih]

theorem idsFrom_append : ∀ (k1 ctr k2 : Nat),
    idsFrom ctr (k1 + k2) = idsFrom ctr k1 ++ idsFrom (ctr + k1) k2 := by
  intro k1
  induction k1 with
  | zero => intro ctr k2; simp [idsFrom]
  | succ n ih =>
    intro ctr k2
    have hre : n + 1 + k2 = (n + k2) + 1 := by omega
    rw [hre]
    simp only [idsFrom, List.cons_append]
    rw [ih (ctr + 1) k2]
    have harg : ctr + 1 + n = ctr + (n + 1) := by omega
    rw [harg]

theorem idsFrom_eq_range : ∀ (k ctr : Nat),
    idsFrom ctr k = (List.range' (ctr + 1) k).map (fun v => natToDec (v % uint64Card)) := by
  intro k
  induction k with
  | zero => intro _; rfl
  | succ n ih =>
    intro ctr
    rw [List.range'_succ]
    simp only [idsFrom, List.map_cons]
    rw [ih (ctr + 1)]

theorem eq_of_mod_eq_window (x y s k : Nat) (hM : k ≤ uint64Card)
    (hx1 : s ≤ x) (hx2 : x < s + k) (hy1 : s ≤ y) (hy2 : y < s + k)
    (h : x % uint64Card = y % uint64Card) : x = y := by
  rcases Nat.le_total x y with hle | hle
  · have hdvd : uint64Card ∣ y - x := (Nat.modEq_iff_dvd' hle).mp h
    have hz : y - x = 0 := Nat.eq_zero_of_dvd_of_lt hdvd (by omega)
    omega
  · have hdvd : uint64Card ∣ x - y := (Nat.modEq_iff_dvd' hle).mp h.symm
    have hz : x - y = 0 := Nat.eq_zero_of_dvd_of_lt hdvd (by omega)
    omega

theorem idsFrom_nodup (k ctr : Nat) (hk : k ≤ uint64Card) : (idsFrom ctr k).Nodup := by
  rw [idsFrom_eq_range]
  refine List.Nodup.map_on ?_ (List.nodup_range' _ _)
  intro x hx y hy hf
  rw [List.mem_range'_1] at hx hy
  exact eq_of_mod_eq_window x y (ctr + 1) k hk hx.1 hx.2 hy.1 hy.2 (natToDec_inj _ _ hf)

theorem uint64Card_pos : 0 < uint64Card := by decide

mutual

theorem ids_convertNode (c : Converter) : (t : TreeSitterNode) → (ctr : Nat) →
    ctr < uint64Card →
    (convertNode c t ctr).2 = (ctr + countTS t) % uint64Card
    ∧ (preorder (convertNode c t ctr).1).map Node.id = idsFrom ctr (countTS t)
  | .mk ty sb eb sp ep cs tx, ctr, hctr => by
    have hmod : (ctr + 1) % uint64Card < uint64Card := Nat.mod_lt _ uint64Card_pos
    have hch := ids_convertChildren c cs ((ctr + 1) % uint64Card) hmod
    rw [convertNode_def]
    simp only [TreeSitterNode.children, nextNodeID] at hch ⊢
    constructor
    · rw [hch.1, Nat.mod_add_mod]
      have : ctr + 1 + countTSList cs = ctr + countTS (TreeSitterNode.mk ty sb eb sp ep cs tx) := by
        simp only [countTS]
        omega
      rw [this]
    · simp only [preorder, List.map_cons, Node.id, countTS]
      have hone : 1 + countTSList cs = countTSList cs + 1 := by omega
      rw [hone]
      simp only [idsFrom]
      congr 1
      rw [hch.2]
      apply idsFrom_congr
      exact Nat.mod_mod_of_dvd _ dvd_rfl

theorem ids_convertChildren (c : Converter) : (l : List (Option TreeSitterNode)) → (ctr : Nat) →
    ctr < uint64Card →
    (convertChildrenSequential c l ctr).2 = (ctr + countTSList l) % uint64Card
    ∧ (preorderList (convertChildrenSequential c l ctr).1).map Node.id
        = idsFrom ctr (countTSList l)
  | [], ctr, hctr => by
    simp [convertChildrenSequential, countTSList, idsFrom, preorderList,
      Nat.mod_eq_of_lt hctr]
  | none :: rest, ctr, hctr => by
    simp only [convertChildrenSequential, countTSList]
    exact ids_convertChildren c rest ctr hctr
  | some t :: rest, ctr, hctr => by
    have hn := ids_convertNode c t ctr hctr
    have h2 : (convertNode c t ctr).2 < uint64Card := by
      rw [hn.1]; exact Nat.mod_lt _ uint64Card_pos
    have hr := ids_convertChildren c rest (convertNode c t ctr).2 h2
    simp only [convertChildrenSequential, countTSList, preorderList, List.map_append]
    constructor
    · rw [hr.1, hn.1, Nat.mod_add_mod]
      have : ctr + countTS t + countTSList rest = ctr + (countTS t + countTSList rest) := by
        omega
      rw [this]
    · rw [hn.2, hr.2]
      have hcg : idsFrom (convertNode c t ctr).2 (countTSList rest)
          = idsFrom (ctr + countTS t) (countTSList rest) := by
        apply idsFrom_congr
        rw [hn.1]
        exact Nat.mod_mod_of_dvd _ dvd_rfl
      rw [hcg, ← idsFrom_append]

end

/-- C5 counterexample: at counter state `2^64 - 1` the next
`atomic.AddUint64` wraps to 0, so the counter value is not `ctr + 1` and
in particular not strictly increasing at that call. -/
theorem C5_counterexample :
    (nextNodeID (uint64Card - 1)).2 = 0
    ∧ ¬ (uint64Card - 1 < (nextNodeID (uint64Card - 1)).2) := by decide

/-- C5 (amended): each `nextNodeID` call returns the decimal string of
the counter after an increment that wraps at `2^64`; while the counter
stays below `2^64` the increment is exact (hence strictly increasing per
call) and a fresh converter's first id is "1".  A converted tree carries
exactly `countTS t` node identities, pairwise distinct provided at most
`2^64` ids are issued in total, and the identities of two successive
conversions by the same converter are disjoint under the same bound.
The statement holds for every converter configuration, in particular for
thresholds that force the parallel child path. -/
theorem C5_identity_uniqueness (c : Converter) (t t2 : TreeSitterNode) (ctr : Nat)
    (hctr : ctr < uint64Card) (hk : countTS t ≤ uint64Card)
    (hk2 : countTS t + countTS t2 ≤ uint64Card) :
    nextNodeID 0 = ("1", 1)
    ∧ (∀ n : Nat, n + 1 < uint64Card →
        (nextNodeID n).2 = n + 1 ∧ n < (nextNodeID n).2
        ∧ (nextNodeID n).1 = natToDec (n + 1))
    ∧ (preorder (convertNode c t ctr).1).length = countTS t
    ∧ ((preorder (convertNode c t ctr).1).map Node.id).Nodup
    ∧ (∀ x, x ∈ (preorder (convertNode c t ctr).1).map Node.id →
        x ∉ (preorder (convertNode c t2 (convertNode c t ctr).2).1).map Node.id) := by
  have hids := ids_convertNode c t ctr hctr
  refine ⟨by decide, ?_, ?_, ?_, ?_⟩
  · intro n h
    have hmod : (n + 1) % uint64Card = n + 1 := Nat.mod_eq_of_lt h
    refine ⟨?_, ?_, ?_⟩ <;> simp [nextNodeID, hmod]
  · have hlen := congrArg List.length hids.2
    simpa [idsFrom_length] using hlen
  · rw [hids.2]
    exact idsFrom_nodup _ _ hk
  · intro x hx
    have h2 : (convertNode c t ctr).2 < uint64Card := by
      rw [hids.1]; exact Nat.mod_lt _ uint64Card_pos
    have hids2 := ids_convertNode c t2 (convertNode c t ctr).2 h2
    rw [hids2.2]
    rw [hids.2] at hx
    have hcg : idsFrom (convertNode c t ctr).2 (countTS t2)
        = idsFrom (ctr + countTS t) (countTS t2) := by
      apply idsFrom_congr
      rw [hids.1]
      exact Nat.mod_mod_of_dvd _ dvd_rfl
    rw [hcg]
    have hnd : (idsFrom ctr (countTS t + countTS t2)).Nodup := idsFrom_nodup _ _ hk2
    rw [idsFrom_append] at hnd
    have hdisj := (List.nodup_append.mp hnd).2.2
    exact hdisj hx

/-- Concrete CST input reused by the witnesses: three non-nil nodes and
one nil child. -/
def tsExample : TreeSitterNode :=
  .mk "program" 0 10 (0, 0) (3, 0)
    [some (.mk "identifier" 0 1 (0, 0) (0, 1) [] "x"), none,
     some (.mk "function" 2 5 (1, 0) (2, 0) [] "f")] ""

theorem C5_identity_uniqueness_witness :
    ((preorder (convertNode NewConverter tsExample 0).1).map Node.id).Nodup :=
  (C5_identity_uniqueness NewConverter tsExample tsExample 0
    (by decide) (by decide) (by decide)).2.2.2.1

theorem idxLookup_idxAppend (m : List (String × List Node)) (k key : String) (n : Node) :
    idxLookup (idxAppend m k n) key
      = if key = k then idxLookup m key ++ [n] else idxLookup m key := by
  induction m with
  | nil =>
    simp only [idxAppend, idxLookup]
    by_cases h : key = k
    · simp [h]
    · simp [h, Ne.symm h]
  | cons hd rest ih =>
    obtain ⟨k2, l⟩ := hd
    by_cases h1 : k2 = k
    · subst h1
      by_cases h2 : k2 = key
      · subst h2
        simp [idxAppend, idxLookup]
      · simp only [idxAppend, idxLookup, if_pos rfl, if_neg h2]
        rw [if_neg (fun hh : key = k2 => h2 hh.symm)]
    · by_cases h2 : k2 = key
      · subst h2
        simp [idxAppend, idxLookup, h1]
      · simp [idxAppend, idxLookup, h1, h2, ih]

theorem foldl_buildStep_fst (nodes : List Node) :
    ∀ (acc : (List (String × List Node)) × (List (String × List Node))) (k : String),
    idxLookup ((nodes.foldl buildStep acc).1) k
      = idxLookup acc.1 k ++ (nodes.filter (fun n => n.type = k)) := by
  induction nodes with
  | nil => intro acc k; simp
  | cons n rest ih =>
    intro acc k
    rw [List.foldl_cons, ih]
    simp only [buildStep]
    rw [idxLookup_idxAppend, List.filter_cons]
    by_cases h : k = n.type
    · simp [if_pos h, h.symm]
    · have hd : decide (n.type = k) = false := decide_eq_false (fun hh => h hh.symm)
      rw [if_neg h]
      simp [hd]

theorem foldl_buildStep_snd (nodes : List Node) :
    ∀ (acc : (List (String × List Node)) × (List (String × List Node))) (k : String),
    k ≠ "" →
    idxLookup ((nodes.foldl buildStep acc).2) k
      = idxLookup acc.2 k ++ (nodes.filter (fun n => n.token = k)) := by
  induction nodes with
  | nil => intro acc k _; simp
  | cons n rest ih =>
    intro acc k hk
    rw [List.foldl_cons, ih _ k hk]
    simp only [buildStep]
    by_cases htok : n.token = ""
    · rw [List.filter_cons]
      simp [htok, Ne.symm hk]
    · rw [if_pos htok, idxLookup_idxAppend, List.filter_cons]
      by_cases h : k = n.token
      · simp [if_pos h, h.symm]
      · have hd : decide (n.token = k) = false := decide_eq_false (fun hh => h hh.symm)
        rw [if_neg h]
        simp [hd]

theorem foldl_buildStep_snd_empty (nodes : List Node) :
    ∀ (acc : (List (String × List Node)) × (List (String × List Node))),
    idxLookup ((nodes.foldl buildStep acc).2) "" = idxLookup acc.2 "" := by
  induction nodes with
  | nil => intro acc; rfl
  | cons n rest ih =>
    intro acc
    rw [List.foldl_cons, ih]
    simp only [buildStep]
    by_cases htok : n.token = ""
    · simp [htok]
    · rw [if_pos htok, idxLookup_idxAppend, if_neg (fun hh : "" = n.token => htok hh.symm)]

theorem FindByType_filter (root : Node) (lang k : String) :
    FindByType (NewUAST root lang) k = (preorder root).filter (fun n => n.type = k) := by
  show idxLookup (buildIndices root).1 k = _
  simp [buildIndices, foldl_buildStep_fst, idxLookup]

theorem FindByToken_filter (root : Node) (lang k : String) (hk : k ≠ "") :
    FindByToken (NewUAST root lang) k = (preorder root).filter (fun n => n.token = k) := by
  show idxLookup (buildIndices root).2 k = _
  simp [buildIndices, foldl_buildStep_snd _ _ _ hk, idxLookup]

theorem FindByToken_empty (root : Node) (lang : String) :
    FindByToken (NewUAST root lang) "" = [] := by
  show idxLookup (buildIndices root).2 "" = _
  simp [buildIndices, foldl_buildStep_snd_empty, idxLookup]

theorem preorder_convert_nodup (c : Converter) (t : TreeSitterNode) (ctr : Nat)
    (hctr : ctr < uint64Card) (hk : countTS t ≤ uint64Card) :
    (preorder (convertNode c t ctr).1).Nodup := by
  apply List.Nodup.of_map Node.id
  rw [(ids_convertNode c t ctr hctr).2]
  exact idsFrom_nodup _ _ hk

/-- C3: in a converted tree (issuing at most `2^64` ids, so that all ids
are distinct), every reachable node appears in the type index under its
own kind exactly once, and under its non-empty token exactly once;
`FindByType k` returns exactly the reachable nodes of kind `k` (in fact
the pre-order traversal filtered to kind `k`), each bucket is
duplicate-free, and the buckets partition the reachable node set. -/
theorem C3_index_completeness (c : Converter) (t : TreeSitterNode) (ctr : Nat) (lang : String)
    (hctr : ctr < uint64Card) (hk : countTS t ≤ uint64Card) :
    (∀ k, FindByType (NewUAST (convertNode c t ctr).1 lang) k
        = (preorder (convertNode c t ctr).1).filter (fun n => n.type = k))
    ∧ (∀ n ∈ preorder (convertNode c t ctr).1,
        (FindByType (NewUAST (convertNode c t ctr).1 lang) n.type).count n = 1)
    ∧ (∀ n ∈ preorder (convertNode c t ctr).1, n.token ≠ "" →
        (FindByToken (NewUAST (convertNode c t ctr).1 lang) n.token).count n = 1)
    ∧ (∀ k, (FindByType (NewUAST (convertNode c t ctr).1 lang) k).Nodup)
    ∧ (∀ k n, n ∈ FindByType (NewUAST (convertNode c t ctr).1 lang) k
        ↔ (n ∈ preorder (convertNode c t ctr).1 ∧ n.type = k)) := by
  have hnd := preorder_convert_nodup c t ctr hctr hk
  refine ⟨fun k => FindByType_filter _ _ _, ?_, ?_, ?_, ?_⟩
  · intro n hn
    rw [FindByType_filter]
    apply List.count_eq_one_of_mem (hnd.filter _)
    rw [List.mem_filter]
    exact ⟨hn, by simp⟩
  · intro n hn htok
    rw [FindByToken_filter _ _ _ htok]
    apply List.count_eq_one_of_mem (hnd.filter _)
    rw [List.mem_filter]
    exact ⟨hn, by simp⟩
  · intro k
    rw [FindByType_filter]
    exact hnd.filter _
  · intro k n
    rw [FindByType_filter, List.mem_filter]
    simp

theorem C3_index_completeness_witness :
    FindByType (NewUAST (convertNode NewConverter tsExample 0).1 "go") Identifier
      = (preorder (convertNode NewConverter tsExample 0).1).filter
          (fun n => n.type = Identifier) :=
  (C3_index_completeness NewConverter tsExample 0 "go" (by decide) (by decide)).1 Identifier

/-- C10: the sequences returned by `FindByType` and `FindByToken` are the
pre-order traversal of the tree filtered to the queried kind/token —
hence sublists of the pre-order sequence, which by its defining
equations lists each parent before its children's traversals and an
earlier sibling's subtree entirely before a later sibling's. -/
theorem C10_find_preorder (root : Node) (lang : String) (k tok : String) (htok : tok ≠ "") :
    (FindByType (NewUAST root lang) k = (preorder root).filter (fun n => n.type = k))
    ∧ (FindByType (NewUAST root lang) k).Sublist (preorder root)
    ∧ (FindByToken (NewUAST root lang) tok
        = (preorder root).filter (fun n => n.token = tok))
    ∧ (FindByToken (NewUAST root lang) tok).Sublist (preorder root)
    ∧ FindByToken (NewUAST root lang) "" = []
    ∧ (∀ n : Node, preorder n = n :: preorderList n.children)
    ∧ (∀ (a : Node) (l : List Node), preorderList (a :: l) = preorder a ++ preorderList l) := by
  refine ⟨FindByType_filter _ _ _, ?_, FindByToken_filter _ _ _ htok, ?_,
    FindByToken_empty _ _, ?_, fun a l => rfl⟩
  · rw [FindByType_filter]
    exact List.filter_sublist _
  · rw [FindByToken_filter _ _ _ htok]
    exact List.filter_sublist _
  · intro n
    cases n
    rfl

theorem C10_find_preorder_witness :
    FindByToken (NewUAST (convertNode NewConverter tsExample 0).1 "go") "x"
      = (preorder (convertNode NewConverter tsExample 0).1).filter
          (fun n => n.token = "x") :=
  (C10_find_preorder (convertNode NewConverter tsExample 0).1 "go" Identifier "x"
    (by decide)).2.2.1

/-- Kind-derived role rules as the specification states them (the
comparandum for the refinement claim about `inferRoles`). -/
def kindRolesSpec (k : NodeType) : List Role :=
  if k = Function ∨ k = Method ∨ k = Class then [RoleDeclaration, RoleDefinition]
  else if k = Call then [RoleCall]
  else if k = Identifier then [RoleReference]
  else if k = Condition then [RoleCondition]
  else if k = Import then [RoleImport]
  else if k = Statement then [RoleStatement]
  else if k = Expression then [RoleExpression]
  else if k = Argument ∨ k = Parameter then [RoleArgument]
  else []

/-- Raw-string-derived role rules as the specification states them. -/
def rawRolesSpec (raw : String) : List Role :=
  if raw = "method_receiver" then [RoleReceiver]
  else if raw = "function_body" ∨ raw = "method_body" then [RoleBody]
  else []

set_option maxHeartbeats 1600000 in
/-- C7: for every normalized kind and raw CST type string, `inferRoles`
returns the kind-derived roles followed by the raw-string-derived roles
(both rule families may fire for the same node), and the result carries
no duplicate roles. -/
theorem C7_infer_roles (k : NodeType) (raw : String) :
    inferRoles k raw = kindRolesSpec k ++ rawRolesSpec raw
    ∧ (inferRoles k raw).Nodup := by
  have hraw : ∀ rs : List Role,
      (if raw = "method_receiver" then rs ++ [RoleReceiver]
       else if raw = "function_body" ∨ raw = "method_body" then rs ++ [RoleBody] else rs)
        = rs ++ rawRolesSpec raw := by
    intro rs
    unfold rawRolesSpec
    split_ifs <;> simp
  have hsplit : inferRoles k raw = kindRolesSpec k ++ rawRolesSpec raw := by
    simp only [inferRoles]
    rw [hraw]
    congr 1
    unfold kindRolesSpec
    split_ifs <;> first
      | rfl
      | tauto
      | simp_all +decide [Function, Method, Class, Call, Identifier, Import,
          Statement, Expression, Argument, Parameter, Condition]
  refine ⟨hsplit, ?_⟩
  rw [hsplit]
  unfold kindRolesSpec rawRolesSpec
  split_ifs <;> decide

mutual

/-- buildPathToHelper searches depth-first for `target` below `current`,
recording visited node identities (the Go map is the threaded list
here); a found path is returned with `current` prepended, and an empty
path plays the role of the Go nil slice. -/
def buildPathToHelper (target : Node) (current : Node) (visited : List String) :
    List Node × List String :=
  match current with
  | .mk i ty tok rs cs ps loc =>
    if decide (i ∈ visited) then ([], visited)
    else
      let visited2 := i :: visited
      if Node.mk i ty tok rs cs ps loc = target then
        ([Node.mk i ty tok rs cs ps loc], visited2)
      else
        let r := pathChildren target cs visited2
        (if r.1.isEmpty then [] else Node.mk i ty tok rs cs ps loc :: r.1, r.2)

/-- Loop of `buildPathToHelper` over the children: the first child under
which the target is found ends the loop; the visited set accumulated by
failed children is kept (the Go map is shared across iterations). -/
def pathChildren (target : Node) : List Node → List String → List Node × List String
  | [], v => ([], v)
  | ch :: rest, v =>
    let r := buildPathToHelper target ch v
    if r.1.isEmpty then pathChildren target rest r.2 else r

end

/-- buildPathTo builds a path from root (`current`) to the given node,
with a fresh visited set per call. -/
def buildPathTo (target : Node) (current : Node) : List Node :=
  if current = target then [current]
  else (buildPathToHelper target current []).1

/-- Association-list embedding of the Go map assignment
`nodePaths[node.ID] = path` (replace on existing key, append otherwise). -/
def pathsInsert (m : List (String × List Node)) (k : String) (v : List Node) :
    List (String × List Node) :=
  match m with
  | [] => [(k, v)]
  | (k2, v2) :: rest => if k2 = k then (k2, v) :: rest else (k2, v2) :: pathsInsert rest k v

/-- Selection of the shortest path (`shortestLen == -1 ||` strictly
smaller), iterating the paths in insertion order — one linearization of
the Go map iteration; the scan result below is insensitive to it because
a position contributes only when every path agrees there. -/
def shortestOf (paths : List (List Node)) : Option (List Node) :=
  paths.foldl
    (fun best p =>
      match best with
      | none => some p
      | some b => if p.length < b.length then some p else some b)
    none

/-- One position of the comparison loop: every contributing path must be
long enough and hold `cur` (by node identity) at position `i`. -/
def agreeAt (paths : List (List Node)) (i : Nat) (cur : Node) : Bool :=
  paths.all (fun p => decide (p[i]? = some cur))

/-- The comparison loop of `GetCommonAncestor`: walk the shortest path,
extending the running answer while every path agrees, and stop at the
first disagreement. -/
def scanCommon (paths : List (List Node)) : List Node → Nat → Option Node → Option Node
  | [], _, acc => acc
  | cur :: rest, i, acc =>
    if agreeAt paths i cur then scanCommon paths rest (i + 1) (some cur) else acc

/-- GetCommonAncestor finds the common ancestor of the given nodes:
empty input and nil root (for two or more nodes) yield none, a single
input is returned as-is, and otherwise the last position at which every
root-relative path agrees yields the answer. -/
def GetCommonAncestor (nodes : List (Option Node)) (root : Option Node) : Option Node :=
  match nodes with
  | [] => none
  | [x] => x
  | _ :: _ :: _ =>
    match root with
    | none => none
    | some r =>
      let nodePaths := nodes.foldl
        (fun m opt =>
          match opt with
          | none => m
          | some node =>
            let path := buildPathTo node r
            if path.length > 0 then pathsInsert m node.id path else m)
        []
      if nodePaths.length = 0 then none
      else
        match shortestOf (nodePaths.map (fun kv => kv.2)) with
        | none => none
        | some sp => scanCommon (nodePaths.map (fun kv => kv.2)) sp 0 none

def nX : Node := .mk "4" Identifier "x" [] [] [] ⟨⟨1, 1⟩, ⟨1, 2⟩⟩

def nA : Node := .mk "2" Function "f" [] [nX] [] ⟨⟨1, 1⟩, ⟨2, 1⟩⟩

def nB : Node := .mk "3" Class "C" [] [] [] ⟨⟨3, 1⟩, ⟨4, 1⟩⟩

def nR : Node := .mk "1" File "" [] [nA, nB] [] ⟨⟨1, 1⟩, ⟨5, 1⟩⟩

/-- Specification-side reading of the comparison loop: the running
prefix is extended for a position only while every contributing path
agrees (by node identity) on the node at that position, and the last
agreeing position yields the result. -/
def lastAgree (paths : List (List Node)) : List Node → Nat → Option Node
  | [], _ => none
  | cur :: rest, i =>
    if agreeAt paths i cur then
      match lastAgree paths rest (i + 1) with
      | none => some cur
      | some x => some x
    else none

theorem scanCommon_lastAgree (paths : List (List Node)) :
    ∀ (sp : List Node) (i : Nat) (acc : Option Node),
    scanCommon paths sp i acc
      = match lastAgree paths sp i with
        | none => acc
        | some x => some x := by
  intro sp
  induction sp with
  | nil => intro i acc; rfl
  | cons cur rest ih =>
    intro i acc
    simp only [scanCommon, lastAgree]
    by_cases h : agreeAt paths i cur = true
    · rw [if_pos h, if_pos h, ih (i + 1) (some cur)]
      cases lastAgree paths rest (i + 1) <;> rfl
    · rw [if_neg h, if_neg h]

/-- C4: GetCommonAncestor returns none for an empty node set; a
single-element set returns that element unconditionally (whatever the
root, including none); two or more nodes with a nil root return none;
in the concrete scenario `R = [A = [X], B]` the query `{X, B}` against
`R` returns `R` (paths `[R,A,X]` and `[R,B]`, longest agreeing position
0); and in general the comparison loop returns exactly the node at the
last position at which every contributing path agrees by node identity
(`lastAgree`). -/
theorem C4_common_ancestor (root : Option Node) (x : Option Node)
    (nodes : List (Option Node)) (h2 : 2 ≤ nodes.length) :
    GetCommonAncestor [] root = none
    ∧ GetCommonAncestor [x] root = x
    ∧ GetCommonAncestor nodes none = none
    ∧ GetCommonAncestor [some nX, some nB] (some nR) = some nR
    ∧ ∀ (paths : List (List Node)) (sp : List Node),
        scanCommon paths sp 0 none = lastAgree paths sp 0 := by
  refine ⟨rfl, rfl, ?_, ?_, ?_⟩
  · match nodes, h2 with
    | _ :: _ :: _, _ => rfl
  · decide
  · intro paths sp
    rw [scanCommon_lastAgree]
    cases lastAgree paths sp 0 <;> rfl

theorem C4_common_ancestor_witness :
    GetCommonAncestor [some nX, some nB] none = none :=
  (C4_common_ancestor none none [some nX, some nB] (by decide)).2.2.1

/-- Finite store of nodes keyed by identity, with child identities: the
pointer-graph view of the heap that `buildPathToHelper` walks.  Unlike
values of the inductive `Node` type, a store can contain cycles, which
is exactly the situation the visited set defends against. -/
def NodeStore := List (String × List String)

def lookupStore : NodeStore → String → Option (List String)
  | [], _ => none
  | (k, cs) :: rest, key => if k = key then some cs else lookupStore rest key

def storeKeys (store : NodeStore) : List String :=
  store.map (fun kv => kv.1)

/-- Number of distinct store identities not yet visited: the quantity
that strictly decreases at every descent of the search. -/
def newKeyCount (store : NodeStore) (v : List String) : Nat :=
  ((storeKeys store).dedup.filter (fun k => decide (k ∉ v))).length

inductive SearchOutcome : Type where
  | found (p : List String)
  | notFound
  | outOfFuel
deriving DecidableEq

mutual

/-- Fuel-indexed embedding of `buildPathToHelper` on the pointer-graph
view: visited check on the current identity, mark, target check, then
the child loop; `outOfFuel` is reachable only when the fuel is
insufficient (C9 shows it never is when the fuel exceeds the number of
unvisited identities). -/
def searchStore (store : NodeStore) : Nat → String → String → List String →
    SearchOutcome × List String
  | 0, _, _, v => (.outOfFuel, v)
  | fuel + 1, target, current, v =>
    match lookupStore store current with
    | none => (.notFound, v)
    | some children =>
      if decide (current ∈ v) then (.notFound, v)
      else
        let v2 := current :: v
        if current = target then (.found [current], v2)
        else
          let r := searchStoreList store fuel target children v2
          (match r.1 with
           | .found p => .found (current :: p)
           | o => o,
           r.2)

/-- Child loop of `searchStore`, threading the visited set. -/
def searchStoreList (store : NodeStore) : Nat → String → List String → List String →
    SearchOutcome × List String
  | _, _, [], v => (.notFound, v)
  | fuel, target, ch :: rest, v =>
    let r := searchStore store fuel target ch v
    match r.1 with
    | .notFound => searchStoreList store fuel target rest r.2
    | o => (o, r.2)

end

theorem length_filter_mono {α : Type} (l : List α) (p q : α → Bool)
    (h : ∀ x, q x = true → p x = true) :
    (l.filter q).length ≤ (l.filter p).length := by
  induction l with
  | nil => simp
  | cons a as ih =>
    by_cases hq : q a = true
    · rw [List.filter_cons_of_pos hq, List.filter_cons_of_pos (h a hq)]
      simpa using ih
    · rw [List.filter_cons_of_neg (by simpa using hq)]
      by_cases hp : p a = true
      · rw [List.filter_cons_of_pos hp]
        exact ih.trans (Nat.le_succ _)
      · rw [List.filter_cons_of_neg (by simpa using hp)]
        exact ih

theorem length_filter_lt {α : Type} (l : List α) (p q : α → Bool) (k : α)
    (hk : k ∈ l) (hpk : p k = true) (hqk : q k = false)
    (h : ∀ x, q x = true → p x = true) :
    (l.filter q).length < (l.filter p).length := by
  induction l with
  | nil => cases hk
  | cons a as ih =>
    rcases List.mem_cons.mp hk with ha | ha
    · subst ha
      rw [List.filter_cons_of_pos hpk, List.filter_cons_of_neg (by simp [hqk])]
      have := length_filter_mono as p q h
      simpa using Nat.lt_succ_of_le this
    · by_cases hq : q a = true
      · rw [List.filter_cons_of_pos hq, List.filter_cons_of_pos (h a hq)]
        simpa using ih ha
      · rw [List.filter_cons_of_neg (by simpa using hq)]
        by_cases hp : p a = true
        · rw [List.filter_cons_of_pos hp]
          simpa using Nat.lt_succ_of_lt (ih ha)
        · rw [List.filter_cons_of_neg (by simpa using hp)]
          exact ih ha

theorem mem_storeKeys_of_lookup (store : NodeStore) (k : String) (cs : List String)
    (h : lookupStore store k = some cs) : k ∈ storeKeys store := by
  induction store with
  | nil => simp [lookupStore] at h
  | cons hd rest ih =>
    obtain ⟨k2, v2⟩ := hd
    by_cases hk : k2 = k
    · subst hk
      simp [storeKeys]
    · rw [lookupStore, if_neg hk] at h
      simp only [storeKeys, List.map_cons, List.mem_cons]
      exact Or.inr (ih h)

theorem newKeyCount_mono (store : NodeStore) (v w : List String)
    (h : ∀ x, x ∈ v → x ∈ w) : newKeyCount store w ≤ newKeyCount store v := by
  apply length_filter_mono
  intro x hx
  simp only [decide_eq_true_eq] at hx ⊢
  intro hv
  exact hx (h x hv)

theorem newKeyCount_cons_lt (store : NodeStore) (v : List String) (k : String)
    (hk : k ∈ storeKeys store) (hv : k ∉ v) :
    newKeyCount store (k :: v) < newKeyCount store v := by
  apply length_filter_lt _ _ _ k (List.mem_dedup.mpr hk)
  · simp [hv]
  · simp
  · intro x hx
    simp only [decide_eq_true_eq, List.mem_cons] at hx ⊢
    intro hxv
    exact hx (Or.inr hxv)

mutual

theorem searchStore_fuel (store : NodeStore) : (fuel : Nat) → (target current : String) →
    (v : List String) → newKeyCount store v < fuel →
    (searchStore store fuel target current v).1 ≠ SearchOutcome.outOfFuel
    ∧ ∀ x, x ∈ v → x ∈ (searchStore store fuel target current v).2
  | 0, _, _, _, h => ((Nat.not_lt_zero _) h).elim
  | fuel + 1, target, current, v, h => by
    simp only [searchStore]
    cases hlk : lookupStore store current with
    | none =>
      exact ⟨by simp, fun x hx => hx⟩
    | some children =>
      dsimp only
      by_cases hv : current ∈ v
      · rw [if_pos (decide_eq_true hv)]
        exact ⟨by simp, fun x hx => hx⟩
      · rw [if_neg (by simp [hv])]
        by_cases ht : current = target
        · rw [if_pos ht]
          exact ⟨by simp, fun x hx => List.mem_cons_of_mem _ hx⟩
        · rw [if_neg ht]
          have hcur : current ∈ storeKeys store :=
            mem_storeKeys_of_lookup store current children hlk
          have hlt : newKeyCount store (current :: v) < fuel := by
            have := newKeyCount_cons_lt store v current hcur hv
            omega
          have hl := searchStoreList_fuel store fuel target children (current :: v) hlt
          constructor
          · cases hr : (searchStoreList store fuel target children (current :: v)).1 with
            | found p => simp [hr]
            | notFound => simp [hr]
            | outOfFuel => exact absurd hr hl.1
          · intro x hx
            exact hl.2 x (List.mem_cons_of_mem _ hx)

theorem searchStoreList_fuel (store : NodeStore) : (fuel : Nat) → (target : String) →
    (l : List String) → (v : List String) → newKeyCount store v < fuel →
    (searchStoreList store fuel target l v).1 ≠ SearchOutcome.outOfFuel
    ∧ ∀ x, x ∈ v → x ∈ (searchStoreList store fuel target l v).2
  | fuel, target, [], v, h => by
    simp only [searchStoreList]
    exact ⟨by simp, fun x hx => hx⟩
  | fuel, target, ch :: rest, v, h => by
    have hs := searchStore_fuel store fuel target ch v h
    simp only [searchStoreList]
    cases hr : (searchStore store fuel target ch v).1 with
    | found p =>
      simp only [hr]
      exact ⟨by simp, fun x hx => hs.2 x hx⟩
    | outOfFuel => exact absurd hr hs.1
    | notFound =>
      simp only [hr]
      have hcount := newKeyCount_mono store v (searchStore store fuel target ch v).2 hs.2
      have hlt : newKeyCount store (searchStore store fuel target ch v).2 < fuel := by
        omega
      have hrest := searchStoreList_fuel store fuel target rest
        (searchStore store fuel target ch v).2 hlt
      exact ⟨hrest.1, fun x hx => hrest.2 x (hs.2 x hx)⟩

end

/-- C9: the depth-first path search over the pointer-graph view of the
node heap (the embedding of `buildPathTo`/`buildPathToHelper` on a
finite id-keyed store, where cycles are representable) never exhausts
its fuel once the fuel exceeds the number of unvisited identities in
the store: the visited-identity set prevents every second descent into
a node, so the search terminates on every finite structure, including
cyclic ones. -/
theorem C9_termination (store : NodeStore) (target current : String) (v : List String)
    (fuel : Nat) (h : newKeyCount store v < fuel) :
    (searchStore store fuel target current v).1 ≠ SearchOutcome.outOfFuel :=
  (searchStore_fuel store fuel target current v h).1

/-- Two-node cycle used by the C9 witness. -/
def cyclicStore : NodeStore := [("1", ["2"]), ("2", ["1"])]

theorem C9_termination_witness :
    (searchStore cyclicStore 3 "absent" "1" []).1 ≠ SearchOutcome.outOfFuel :=
  C9_termination cyclicStore "absent" "1" [] 3 (by decide)

end UastGo
